import Mathlib

/-!
Verification of the BluraySubtitle repository against its natural-language
specification.  The Python source (src/BluraySubtitle.py) is shallowly
embedded below: times are rationals (the source computes with binary floats,
which are exact at every value these claims touch), byte streams are lists of
naturals, and fallible code returns Option.  Line numbers in comments refer
to src/BluraySubtitle.py.
-/

/-! ### Duration estimator (Subtitle.max_end_time, lines 352-369; PGS.__init__, lines 240-251) -/

/-- Python max() over a nonempty list (lines 245, 247, 363, 365). -/
def pyMax : List ℚ → Option ℚ
  | [] => none
  | x :: xs => some (xs.foldl max x)

/-- The value set underlying Python set(...) (lines 244, 362): the distinct
elements of the list.  Iteration order is irrelevant to the source, which
only takes maxima of the set. -/
def pyDedup : List ℚ → List ℚ
  | [] => []
  | x :: xs =>
    let r := pyDedup xs
    if x ∈ r then r else x :: r

/-- Python set.remove (lines 246, 364). -/
def pyRemove (a : ℚ) : List ℚ → List ℚ
  | [] => []
  | x :: xs => if x = a then xs else x :: pyRemove a xs

/-- The shared outlier guard: form the set of end values, take the maximum,
remove it, take the maximum of the rest; keep the second-largest when it is
more than 300 s below the largest (lines 244-251 and 362-369). -/
def maxEndGuard (ends : List ℚ) : Option ℚ :=
  match pyMax (pyDedup ends) with
  | none => none
  | some m =>
    match pyMax (pyRemove m (pyDedup ends)) with
    | none => none
    | some m1 => if m1 < m - 300 then some m1 else some m

/-- ASS branch of Subtitle.max_end_time (lines 362-369): end_set is the set of
event End values in seconds. -/
def max_end_time_ass (ends : List ℚ) : Option ℚ :=
  maxEndGuard ends

/-- PGS.__init__ (lines 240-251): the timestamps yielded by iter_timestamp are
those strictly below 18000 s (line 261); the same outlier guard is applied. -/
def pgs_max_end (pts : List ℚ) : Option ℚ :=
  maxEndGuard (pts.filter (fun t => t < 18000))

/-- One field of a parsed SRT entry: the Python list new_line holds an int
(the index) followed by strings (SRT.__init__, lines 210-230). -/
inductive SField where
  | i : Int → SField
  | s : String → SField
deriving DecidableEq, Repr

/-- Digits of a decimal character list, folded to a natural number. -/
def natOfDigits (l : List Char) : ℕ :=
  l.foldl (fun n c => n * 10 + (c.toNat - 48)) 0

/-- Split a character list at every occurrence of a separator character
(Python str.split with a one-character separator). -/
def splitOnChar (c : Char) : List Char → List (List Char)
  | [] => [[]]
  | x :: xs =>
    match splitOnChar c xs with
    | [] => [[]]
    | r :: rs => if x = c then [] :: r :: rs else (x :: r) :: rs

/-- Python float(str) on the forms the source feeds it: optional sign,
digits, optional single period with fractional digits. -/
def pyFloatChars (l : List Char) : Option ℚ :=
  let sgn : ℚ := if l.head? = some '-' then -1 else 1
  let t := if l.head? = some '-' then l.tail else l
  match splitOnChar '.' t with
  | [a] =>
    if a ≠ [] ∧ a.all Char.isDigit then some (sgn * natOfDigits a) else none
  | [a, b] =>
    if (a ++ b) ≠ [] ∧ (a ++ b).all Char.isDigit then
      some (sgn * (natOfDigits a + (natOfDigits b : ℚ) / 10 ^ b.length))
    else none
  | _ => none

/-- Python map(float, ...) forced by reduce: every piece must parse. -/
def mapPyFloat : List (List Char) → Option (List ℚ)
  | [] => some []
  | p :: ps =>
    match pyFloatChars p, mapPyFloat ps with
    | some q, some qs => some (q :: qs)
    | _, _ => none

/-- Parse an SRT timestamp to seconds: replace commas by periods, split on
colons, parse each piece as a float and fold a*60+b (lines 304-305, 356). -/
def parse_time_float (s : String) : Option ℚ :=
  match mapPyFloat (splitOnChar ':' (s.toList.map (fun c => if c = ',' then '.' else c))) with
  | none => none
  | some [] => none
  | some (x :: xs) => some (xs.foldl (fun a b => a * 60 + b) x)

/-- The end-time of one parsed SRT entry: line[2] must be a string that
parses as a timestamp (line 356). -/
def srtLineEnd (l : List SField) : Option ℚ :=
  match l.get? 2 with
  | some (SField.s s) => parse_time_float s
  | _ => none

/-- End times of all SRT entries; Python's max(map(...)) forces every element,
so a single failing entry fails the whole computation. -/
def endsOfSrt : List (List SField) → Option (List ℚ)
  | [] => some []
  | l :: ls =>
    match srtLineEnd l, endsOfSrt ls with
    | some q, some qs => some (q :: qs)
    | _, _ => none

/-- SRT branch of Subtitle.max_end_time (lines 353-359): the plain maximum of
the parsed end times, with no outlier guard. -/
def max_end_time_srt (lines : List (List SField)) : Option ℚ :=
  match endsOfSrt lines with
  | none => none
  | some qs => pyMax qs

/-- Modelled from the spec's words (§3 Duration estimate), for refinement
comparison: take the maximum end time and the second-largest (distinct) end
time; if the second-largest is below the maximum minus 300 s return it,
otherwise return the maximum. -/
def spec_outlier_max_end (ends : List ℚ) : Option ℚ :=
  match pyMax (pyDedup ends) with
  | none => none
  | some top =>
    match pyMax (pyRemove top (pyDedup ends)) with
    | none => none
    | some second => if second < top - 300 then some second else some top

theorem foldl_max_mem : ∀ (xs : List ℚ) (x : ℚ), xs.foldl max x ∈ x :: xs
  | [], _ => by simp
  | y :: ys, x => by
    have h := foldl_max_mem ys (max x y)
    simp only [List.foldl]
    rcases List.mem_cons.1 h with h1 | h1
    · rcases max_choice x y with hm | hm
      · rw [h1, hm]; exact List.mem_cons_self _ _
      · rw [h1, hm]; exact List.mem_cons_of_mem _ (List.mem_cons_self _ _)
    · exact List.mem_cons_of_mem _ (List.mem_cons_of_mem _ h1)

theorem foldl_max_le : ∀ (xs : List ℚ) (x a : ℚ), a ∈ x :: xs → a ≤ xs.foldl max x
  | [], x, a, ha => by
    simp only [List.mem_singleton] at ha
    simp [ha]
  | y :: ys, x, a, ha => by
    simp only [List.foldl]
    have hself : max x y ≤ ys.foldl max (max x y) :=
      foldl_max_le ys (max x y) _ (List.mem_cons_self _ _)
    rcases List.mem_cons.1 ha with h1 | h1
    · subst h1
      exact le_trans (le_max_left a y) hself
    · rcases List.mem_cons.1 h1 with h2 | h2
      · subst h2
        exact le_trans (le_max_right x a) hself
      · exact foldl_max_le ys (max x y) a (List.mem_cons_of_mem _ h2)

theorem pyMax_mem {l : List ℚ} {m : ℚ} (h : pyMax l = some m) : m ∈ l := by
  cases l with
  | nil => simp [pyMax] at h
  | cons x xs =>
    simp only [pyMax, Option.some.injEq] at h
    subst h
    exact foldl_max_mem xs x

theorem pyMax_isSome {l : List ℚ} (h : l ≠ []) : ∃ m, pyMax l = some m := by
  cases l with
  | nil => exact absurd rfl h
  | cons x xs => exact ⟨xs.foldl max x, rfl⟩

theorem pyMax_ge {l : List ℚ} {m : ℚ} (h : pyMax l = some m) : ∀ a ∈ l, a ≤ m := by
  cases l with
  | nil => simp [pyMax] at h
  | cons x xs =>
    simp only [pyMax, Option.some.injEq] at h
    subst h
    exact fun a ha => foldl_max_le xs x a ha

theorem mem_pyDedup : ∀ (l : List ℚ) (a : ℚ), a ∈ pyDedup l ↔ a ∈ l
  | [], a => by simp [pyDedup]
  | x :: xs, a => by
    simp only [pyDedup]
    by_cases hx : x ∈ pyDedup xs
    · simp only [if_pos hx, List.mem_cons, mem_pyDedup xs a]
      constructor
      · exact Or.inr
      · rintro (h | h)
        · exact h ▸ (mem_pyDedup xs x).1 hx
        · exact h
    · simp [if_neg hx, List.mem_cons, mem_pyDedup xs a]

theorem pyRemove_subset : ∀ (l : List ℚ) (a b : ℚ), b ∈ pyRemove a l → b ∈ l
  | [], a, b => by simp [pyRemove]
  | x :: xs, a, b => by
    simp only [pyRemove]
    by_cases hx : x = a
    · simp only [if_pos hx]
      exact fun h => List.mem_cons_of_mem _ h
    · simp only [if_neg hx, List.mem_cons]
      rintro (h | h)
      · exact Or.inl h
      · exact Or.inr (pyRemove_subset xs a b h)

theorem pyRemove_length_of_mem : ∀ (l : List ℚ) (a : ℚ), a ∈ l →
    (pyRemove a l).length = l.length - 1
  | [], a, h => by simp at h
  | x :: xs, a, h => by
    simp only [pyRemove]
    by_cases hx : x = a
    · simp [if_pos hx]
    · have hmem : a ∈ xs := by
        rcases List.mem_cons.1 h with h1 | h1
        · exact absurd h1.symm hx
        · exact h1
      have hlen := pyRemove_length_of_mem xs a hmem
      have hpos : 1 ≤ xs.length := List.length_pos.2 (List.ne_nil_of_mem hmem)
      simp only [if_neg hx, List.length_cons, hlen]
      omega

theorem endsOfSrt_length : ∀ (ls : List (List SField)) (qs : List ℚ),
    endsOfSrt ls = some qs → qs.length = ls.length
  | [], qs, h => by
    simp only [endsOfSrt, Option.some.injEq] at h
    simp [← h]
  | l :: ls, qs, h => by
    simp only [endsOfSrt] at h
    cases he : srtLineEnd l with
    | none => rw [he] at h; exact absurd h (by simp)
    | some q =>
      rw [he] at h
      cases hr : endsOfSrt ls with
      | none => rw [hr] at h; exact absurd h (by simp)
      | some qs' =>
        rw [hr] at h
        simp only [Option.some.injEq] at h
        subst h
        simp [endsOfSrt_length ls qs' hr]

theorem maxEndGuard_total (ends : List ℚ) (h2 : 2 ≤ (pyDedup ends).length)
    (hnn : ∀ x ∈ ends, 0 ≤ x) : ∃ v, maxEndGuard ends = some v ∧ 0 ≤ v := by
  have hne : pyDedup ends ≠ [] := by
    intro h; rw [h] at h2; simp at h2
  obtain ⟨m, hm⟩ := pyMax_isSome hne
  have hmmem : m ∈ pyDedup ends := pyMax_mem hm
  have hm0 : 0 ≤ m := hnn m ((mem_pyDedup ends m).1 hmmem)
  have hlen := pyRemove_length_of_mem (pyDedup ends) m hmmem
  have herane : pyRemove m (pyDedup ends) ≠ [] := by
    intro h
    rw [h] at hlen
    simp only [List.length_nil] at hlen
    omega
  obtain ⟨m1, hm1⟩ := pyMax_isSome herane
  have hm1mem : m1 ∈ pyDedup ends := pyRemove_subset _ m m1 (pyMax_mem hm1)
  have hm10 : 0 ≤ m1 := hnn m1 ((mem_pyDedup ends m1).1 hm1mem)
  refine ⟨if m1 < m - 300 then m1 else m, ?_, ?_⟩
  · simp only [maxEndGuard, hm, hm1]
    split <;> rfl
  · by_cases hc : m1 < m - 300
    · simpa [hc] using hm10
    · simpa [hc] using hm0

/-- C3 (amended): the duration estimator is a pure function of the parsed
content, and it returns a finite non-negative value whenever the content is
non-degenerate: an ASS event list with at least two distinct end times, a PGS
timestamp list with at least two distinct retained (below 18000 s) values, or
a non-empty SRT entry list whose end fields parse to non-negative seconds.
(Unconditional totality, as the original claim states it, is refuted
separately: with fewer than two distinct end values the ASS and PGS paths
raise an exception, modelled as none.) -/
theorem max_end_total_nonneg :
    (∀ ends : List ℚ, 2 ≤ (pyDedup ends).length → (∀ x ∈ ends, 0 ≤ x) →
      ∃ v, max_end_time_ass ends = some v ∧ 0 ≤ v) ∧
    (∀ pts : List ℚ, 2 ≤ (pyDedup (pts.filter (fun t => t < 18000))).length →
      (∀ x ∈ pts, 0 ≤ x) → ∃ v, pgs_max_end pts = some v ∧ 0 ≤ v) ∧
    (∀ (lines : List (List SField)) (qs : List ℚ), endsOfSrt lines = some qs →
      lines ≠ [] → (∀ q ∈ qs, 0 ≤ q) →
      ∃ v, max_end_time_srt lines = some v ∧ 0 ≤ v) := by
  refine ⟨?_, ?_, ?_⟩
  · intro ends h2 hnn
    exact maxEndGuard_total ends h2 hnn
  · intro pts h2 hnn
    exact maxEndGuard_total _ h2 (fun x hx => hnn x (List.mem_of_mem_filter hx))
  · intro lines qs hq hne hnn
    have hqne : qs ≠ [] := by
      intro h
      have := endsOfSrt_length lines qs hq
      rw [h] at this
      simp only [List.length_nil] at this
      exact hne (List.eq_nil_of_length_eq_zero this.symm)
    obtain ⟨m, hm⟩ := pyMax_isSome hqne
    refine ⟨m, ?_, hnn m (pyMax_mem hm)⟩
    simp only [max_end_time_srt, hq, hm]

/-- C3 counterexample: a legitimate two-event ASS subtitle whose events share
one end time makes Subtitle.max_end_time raise ValueError (max() of an empty
set after removing the unique maximum); the estimator is not total. -/
theorem max_end_single_end_none : max_end_time_ass [100, 100] = none := by decide

theorem max_end_total_nonneg_witness :
    (∃ v, max_end_time_ass [10, 20] = some v ∧ 0 ≤ v) ∧
    (∃ v, pgs_max_end [5, 6] = some v ∧ 0 ≤ v) ∧
    (∃ v, max_end_time_srt [[SField.i 1, SField.s "00:00:01,000",
      SField.s "00:00:02,000"]] = some v ∧ 0 ≤ v) :=
  ⟨max_end_total_nonneg.1 [10, 20] (by decide) (by decide),
   max_end_total_nonneg.2.1 [5, 6] (by decide) (by decide),
   max_end_total_nonneg.2.2 _ [2]
     (by simp [endsOfSrt, srtLineEnd, parse_time_float, splitOnChar, pyFloatChars,
           mapPyFloat, natOfDigits])
     (by decide) (by norm_num)⟩

/-- C4 (amended): the ASS branch of the estimator implements exactly the
spec's outlier rule (max and second-largest with the 300 s guard), and the
spec's concrete outlier example holds; the SRT branch however returns the
plain maximum of the entry end times, with no outlier guard. -/
theorem max_end_rule_ass_srt :
    (∀ ends : List ℚ, max_end_time_ass ends = spec_outlier_max_end ends) ∧
    max_end_time_ass [1380, 1390, 4000] = some 1390 ∧
    (∀ (lines : List (List SField)) (qs : List ℚ), endsOfSrt lines = some qs →
      qs ≠ [] → ∃ m, max_end_time_srt lines = some m ∧ m ∈ qs ∧ ∀ q ∈ qs, q ≤ m) := by
  refine ⟨fun ends => rfl, ?_, ?_⟩
  · norm_num [max_end_time_ass, maxEndGuard, pyMax, pyDedup, pyRemove, max_def]
  · intro lines qs hq hne
    obtain ⟨m, hm⟩ := pyMax_isSome hne
    refine ⟨m, ?_, pyMax_mem hm, pyMax_ge hm⟩
    simp only [max_end_time_srt, hq, hm]

/-- C4 counterexample: an SRT subtitle with end times 1380 s and 4000 s.  The
spec's rule returns the second-largest (1380, since 1380 < 4000 - 300), but
Subtitle.max_end_time on the SRT path returns the plain maximum 4000. -/
theorem srt_max_end_no_outlier_guard :
    max_end_time_srt
      [[SField.i 1, SField.s "00:22:59,000", SField.s "00:23:00,000"],
       [SField.i 2, SField.s "01:06:00,000", SField.s "01:06:40,000"]] = some 4000 ∧
    spec_outlier_max_end [1380, 4000] = some 1380 := by
  constructor
  · simp [max_end_time_srt, endsOfSrt, srtLineEnd, parse_time_float, splitOnChar,
      pyFloatChars, mapPyFloat, natOfDigits, pyMax, max_def]
    all_goals norm_num
  · norm_num [spec_outlier_max_end, pyMax, pyDedup, pyRemove, max_def]

theorem max_end_rule_witness :
    ∃ m, max_end_time_srt [[SField.i 1, SField.s "00:00:01,000",
      SField.s "00:00:03,000"]] = some m ∧ m ∈ [(3 : ℚ)] ∧ ∀ q ∈ [(3 : ℚ)], q ≤ m :=
  max_end_rule_ass_srt.2.2 _ [3]
    (by simp [endsOfSrt, srtLineEnd, parse_time_float, splitOnChar, pyFloatChars,
          mapPyFloat, natOfDigits]; all_goals norm_num)
    (by decide)

/-! ### SRT parser, serializer and merger (SRT, lines 209-237; Subtitle.append_ass SRT branch, lines 300-308; get_time_str, lines 1980-1990) -/

/-- Python regex r'^(\d+)$' (line 215). -/
def isIndexLine (l : List Char) : Bool :=
  !l.isEmpty && l.all Char.isDigit

/-- The union of the two timestamp regexes of lines 218-219.  The second one
uses an unescaped period, which matches any character, so the union accepts
any character at the two separator positions (comma and period included). -/
def isTimeLine : List Char → Bool
  | [d1, d2, c1, d3, d4, c2, d5, d6, _, d7, d8, d9, sp1, h1, h2, a1, sp2,
     e1, e2, c3, e3, e4, c4, e5, e6, _, e7, e8, e9] =>
    d1.isDigit && d2.isDigit && c1 == ':' && d3.isDigit && d4.isDigit && c2 == ':' &&
    d5.isDigit && d6.isDigit && d7.isDigit && d8.isDigit && d9.isDigit &&
    sp1 == ' ' && h1 == '-' && h2 == '-' && a1 == '>' && sp2 == ' ' &&
    e1.isDigit && e2.isDigit && c3 == ':' && e3.isDigit && e4.isDigit && c4 == ':' &&
    e5.isDigit && e6.isDigit && e7.isDigit && e8.isDigit && e9.isDigit
  | _ => false

/-- A line that Python's line.strip() reduces to the empty string. -/
def isBlankLine (l : List Char) : Bool :=
  l.all Char.isWhitespace

/-- Parser state of SRT.__init__.  Python leaves new_line and added unbound
until the first index line, and the list appended to self.lines stays aliased
to new_line until the next index line rebinds it: lines = done, plus cur when
added = some true. -/
structure SrtState where
  done : List (List SField)
  cur : Option (List SField)
  added : Option Bool
deriving DecidableEq, Repr

/-- One iteration of the line loop of SRT.__init__ (lines 214-230); none
models an uncaught Python exception (NameError on unbound new_line or added,
IndexError or TypeError on a malformed in-progress entry). -/
def srtStep (st : SrtState) (l : List Char) : Option SrtState :=
  if isIndexLine l then
    match st.added, st.cur with
    | some true, some c =>
      some ⟨st.done ++ [c], some [SField.i (natOfDigits l)], some false⟩
    | some true, none => none
    | some false, _ => some ⟨st.done, some [SField.i (natOfDigits l)], some false⟩
    | none, _ => some ⟨st.done, some [SField.i (natOfDigits l)], some false⟩
  else if isTimeLine l then
    match st.cur with
    | none => none
    | some c =>
      some ⟨st.done,
        some (c ++ [SField.s (String.mk (l.take 12)), SField.s (String.mk ((l.drop 17).take 12))]),
        st.added⟩
  else if ¬ isBlankLine l then
    match st.cur with
    | none => none
    | some c =>
      if c.length = 3 then some ⟨st.done, some (c ++ [SField.s (String.mk l)]), st.added⟩
      else
        match c.get? 3 with
        | some (SField.s t) =>
          some ⟨st.done, some (c.set 3 (SField.s (t ++ "\n" ++ String.mk l))), st.added⟩
        | some (SField.i _) => none
        | none => none
  else
    match st.added with
    | none => none
    | some true => some st
    | some false =>
      match st.cur with
      | none => none
      | some _ => some ⟨st.done, st.cur, some true⟩

def srtRun : SrtState → List (List Char) → Option SrtState
  | st, [] => some st
  | st, l :: ls =>
    match srtStep st l with
    | none => none
    | some st' => srtRun st' ls

/-- The Python self.lines list described by a final parser state. -/
def srtLinesOf (st : SrtState) : List (List SField) :=
  st.done ++ (match st.added, st.cur with
    | some true, some c => [c]
    | _, _ => [])

/-- SRT.__init__ (lines 210-230): split the raw text on newlines and run the
line loop. -/
def SRT_init (text : String) : Option (List (List SField)) :=
  match srtRun ⟨[], none, none⟩ (splitOnChar '\n' text.toList) with
  | none => none
  | some st => some (srtLinesOf st)

/-- Python str() of an int. -/
def intRepr (n : Int) : String :=
  if n < 0 then "-" ++ Nat.repr (-n).toNat else Nat.repr n.toNat

/-- Python str() of one SRT field, as interpolated by an f-string. -/
def fieldStr : SField → String
  | SField.i n => intRepr n
  | SField.s s => s

/-- Serialization of one entry by SRT.dump_file (lines 232-237): index line,
timestamp line echoed verbatim from the stored strings, text, blank line.
The entry is skipped (empty output) when its index is deleted. -/
def srtDumpOne (deleted : List Int) : List SField → Option String
  | SField.i n :: rest =>
    if n ∈ deleted then some "" else
      match rest with
      | f1 :: f2 :: SField.s txt :: _ =>
        some (intRepr n ++ "\n" ++ fieldStr f1 ++ " --> " ++ fieldStr f2 ++ "\n"
          ++ txt ++ "\n\n")
      | _ => none
  | _ => none

/-- SRT.dump_file over the whole entry list. -/
def SRT_dump_file (deleted : List Int) : List (List SField) → Option String
  | [] => some ""
  | l :: ls =>
    match srtDumpOne deleted l, SRT_dump_file deleted ls with
    | some s, some r => some (s ++ r)
    | _, _ => none

/-- Round half to even at three decimals: Python round(x, 3) on the exact
decimal values these claims evaluate. -/
def roundHalfEven (q : ℚ) : ℤ :=
  let f := ⌊q⌋
  let r := q - f
  if r < 1 / 2 then f else if 1 / 2 < r then f + 1 else if f % 2 = 0 then f else f + 1

def pyRound3 (q : ℚ) : ℚ :=
  (roundHalfEven (q * 1000) : ℚ) / 1000

/-- Fraction digits of an exact short decimal, most significant first;
stops at the first all-zero tail. -/
def fracDigitsAux : ℚ → ℕ → List ℕ
  | _, 0 => []
  | r, n + 1 =>
    if r = 0 then []
    else
      let d := ⌊r * 10⌋
      d.toNat :: fracDigitsAux (r * 10 - d) n

/-- Python str() of a non-negative float whose value is an exact short
decimal (the only values the source formats): integer part, period, minimal
fraction digits, at least one (str(1.0) is the four characters 1.0). -/
def pyFloatStr (q : ℚ) : String :=
  let ip := ⌊q⌋
  let ds := fracDigitsAux (q - ip) 20
  intRepr ip ++ "." ++ (if ds = [] then "0" else String.mk (ds.map Nat.digitChar))

/-- get_time_str (lines 1980-1990): 0 maps to the string 0; otherwise
HH:MM:SS.mmm with two-digit zero-padded hours and minutes, seconds rounded
to three decimals, zero-padded to two integer and three fraction digits.
The seconds separator is a period, not a comma. -/
def get_time_str (duration : ℚ) : String :=
  if duration = 0 then "0"
  else
    let hoursI : ℤ := ⌊duration / 3600⌋
    let dur := duration - 3600 * hoursI
    let minutesI : ℤ := ⌊dur / 60⌋
    let seconds := pyRound3 (dur - 60 * minutesI)
    let hs := if (intRepr hoursI).length = 1 then "0" ++ intRepr hoursI else intRepr hoursI
    let ms := if (intRepr minutesI).length = 1 then "0" ++ intRepr minutesI else intRepr minutesI
    match splitOnChar '.' (pyFloatStr seconds).toList with
    | [s1, s2] =>
      hs ++ ":" ++ ms ++ ":" ++
        (if s1.length = 1 then "0" ++ String.mk s1 else String.mk s1) ++ "." ++
        (if s2.length < 3 then String.mk s2 ++ String.mk (List.replicate (3 - s2.length) '0')
         else String.mk s2)
    | _ => "ERR"

/-- Time shift of one incoming entry in the SRT branch of
Subtitle.append_ass (lines 300-308): add the base's last index to the entry
index, parse both timestamps, shift them, and re-format with get_time_str. -/
def srtShiftLine (index : Int) (shift : ℚ) : List SField → Option (List SField)
  | SField.i n :: SField.s t1 :: SField.s t2 :: rest =>
    match parse_time_float t1, parse_time_float t2 with
    | some st, some et =>
      some (SField.i (n + index) :: SField.s (get_time_str (st + shift)) ::
        SField.s (get_time_str (et + shift)) :: rest)
    | _, _ => none
  | _ => none

def srtShiftAll (index : Int) (shift : ℚ) : List (List SField) → Option (List (List SField))
  | [] => some []
  | l :: ls =>
    match srtShiftLine index shift l, srtShiftAll index shift ls with
    | some l', some ls' => some (l' :: ls')
    | _, _ => none

/-- SRT branch of Subtitle.append_ass: shift every incoming entry and extend
the base entry list (lines 300-308). -/
def append_srt (base : List (List SField)) (new : List (List SField)) (shift : ℚ) :
    Option (List (List SField)) :=
  match base.getLast? with
  | none => none
  | some lastLine =>
    match lastLine.get? 0 with
    | some (SField.i index) =>
      match srtShiftAll index shift new with
      | some shifted => some (base ++ shifted)
      | none => none
    | _ => none

theorem srtStep_no_blank {st st' : SrtState} {l : List Char}
    (h : srtStep st l = some st') (hb : isBlankLine l = false) :
    (srtLinesOf st').length = (srtLinesOf st).length := by
  unfold srtStep at h
  split at h
  · split at h
    · rename_i heqa heqc
      cases h
      simp [srtLinesOf, heqa, heqc]
    · cases h
    · rename_i heqa
      cases h
      simp [srtLinesOf, heqa]
    · rename_i heqa
      cases h
      simp [srtLinesOf, heqa]
  · split at h
    · split at h
      · cases h
      · rename_i heqc
        cases h
        rcases hadd : st.added with _ | b
        · simp [srtLinesOf, hadd]
        · cases b <;> simp [srtLinesOf, hadd, heqc]
    · split at h
      · split at h
        · cases h
        · rename_i heqc
          split at h
          · cases h
            rcases hadd : st.added with _ | b
            · simp [srtLinesOf, hadd]
            · cases b <;> simp [srtLinesOf, hadd, heqc]
          · split at h
            · rename_i heqt
              cases h
              rcases hadd : st.added with _ | b
              · simp [srtLinesOf, hadd]
              · cases b <;> simp [srtLinesOf, hadd, heqc]
            · cases h
            · cases h
      · rename_i hnb
        rw [hb] at hnb
        simp at hnb

theorem srtRun_no_blank : ∀ (ls : List (List Char)) (st st' : SrtState),
    srtRun st ls = some st' → (∀ l ∈ ls, isBlankLine l = false) →
    (srtLinesOf st').length = (srtLinesOf st).length
  | [], st, st', h, _ => by
    simp only [srtRun, Option.some.injEq] at h
    rw [h]
  | l :: ls, st, st', h, hb => by
    simp only [srtRun] at h
    cases hs : srtStep st l with
    | none => rw [hs] at h; exact absurd h (by simp)
    | some st1 =>
      rw [hs] at h
      have h1 := srtStep_no_blank hs (hb l (List.mem_cons_self _ _))
      have h2 := srtRun_no_blank ls st1 st' h (fun x hx => hb x (List.mem_cons_of_mem _ hx))
      omega

/-- C10: SRT.__init__ commits an in-progress entry to self.lines only when it
meets a blank (empty or whitespace-only) line: on any non-blank line the
number of recorded entries is unchanged, so an input with no blank line
parses to an empty entry list, and a final entry not followed by a blank
line or trailing newline is absent; adding the trailing newline makes the
final entry appear. -/
theorem srt_entry_recorded_only_at_blank :
    (∀ (st st' : SrtState) (l : List Char), srtStep st l = some st' →
      isBlankLine l = false → (srtLinesOf st').length = (srtLinesOf st).length) ∧
    (∀ (text : String) (res : List (List SField)), SRT_init text = some res →
      (∀ l ∈ splitOnChar '\n' text.toList, isBlankLine l = false) → res = []) ∧
    SRT_init "1\n00:00:01,000 --> 00:00:02,000\nhello" = some [] ∧
    SRT_init "1\n00:00:01,000 --> 00:00:02,000\nhello\n" =
      some [[SField.i 1, SField.s "00:00:01,000", SField.s "00:00:02,000",
        SField.s "hello"]] := by
  refine ⟨fun st st' l h hb => srtStep_no_blank h hb, ?_, by decide, by decide⟩
  intro text res h hb
  unfold SRT_init at h
  cases hr : srtRun ⟨[], none, none⟩ (splitOnChar '\n' text.toList) with
  | none => rw [hr] at h; exact absurd h (by simp)
  | some st =>
    rw [hr] at h
    simp only [Option.some.injEq] at h
    have := srtRun_no_blank _ _ _ hr hb
    simp only [srtLinesOf, List.append_nil, List.length_nil] at this
    rw [← h]
    have hlen : (srtLinesOf st).length = 0 := by
      simpa [srtLinesOf] using this
    exact List.eq_nil_of_length_eq_zero hlen

theorem srt_entry_recorded_only_at_blank_witness :
    SRT_init "1" = some [] ∧ ([] : List (List SField)) = [] :=
  ⟨by decide, srt_entry_recorded_only_at_blank.2.1 "1" [] (by decide) (by decide)⟩

theorem get_time_str_61 : get_time_str 61 = "00:01:01.000" := by
  norm_num [get_time_str, pyRound3, roundHalfEven, pyFloatStr, fracDigitsAux, intRepr, splitOnChar]
  decide

theorem get_time_str_62 : get_time_str 62 = "00:01:02.000" := by
  norm_num [get_time_str, pyRound3, roundHalfEven, pyFloatStr, fracDigitsAux, intRepr, splitOnChar]
  decide

theorem get_time_str_shift3 : get_time_str (2887 / 2) = "00:24:03.500" := by
  norm_num [get_time_str, pyRound3, roundHalfEven, pyFloatStr, fracDigitsAux, intRepr, splitOnChar]
  decide

theorem get_time_str_shift4 : get_time_str (2889 / 2) = "00:24:04.500" := by
  norm_num [get_time_str, pyRound3, roundHalfEven, pyFloatStr, fracDigitsAux, intRepr, splitOnChar]
  decide

theorem parse_tf_1 : parse_time_float "00:00:01,000" = some 1 := by
  simp [parse_time_float, splitOnChar, mapPyFloat, pyFloatChars, natOfDigits]
  all_goals norm_num

theorem parse_tf_2 : parse_time_float "00:00:02,000" = some 2 := by
  simp [parse_time_float, splitOnChar, mapPyFloat, pyFloatChars, natOfDigits]
  all_goals norm_num

theorem parse_tf_3 : parse_time_float "00:00:03,000" = some 3 := by
  simp [parse_time_float, splitOnChar, mapPyFloat, pyFloatChars, natOfDigits]
  all_goals norm_num

theorem parse_tf_4 : parse_time_float "00:00:04,000" = some 4 := by
  simp [parse_time_float, splitOnChar, mapPyFloat, pyFloatChars, natOfDigits]
  all_goals norm_num

/-- C6 counterexample: merging a one-entry SRT into a one-entry base with a
60 s shift re-formats the appended entry's timestamps through get_time_str,
which emits 00:01:01.000 with a period; the serialized output therefore
contains a period-separated timestamp, not the canonical comma form the
claim requires. -/
theorem srt_merge_emits_period_timestamps :
    append_srt
      [[SField.i 1, SField.s "00:00:01,000", SField.s "00:00:02,000", SField.s "a"]]
      [[SField.i 1, SField.s "00:00:01,000", SField.s "00:00:02,000", SField.s "b"]] 60 =
      some [[SField.i 1, SField.s "00:00:01,000", SField.s "00:00:02,000", SField.s "a"],
            [SField.i 2, SField.s "00:01:01.000", SField.s "00:01:02.000", SField.s "b"]] ∧
    SRT_dump_file []
      [[SField.i 1, SField.s "00:00:01,000", SField.s "00:00:02,000", SField.s "a"],
       [SField.i 2, SField.s "00:01:01.000", SField.s "00:01:02.000", SField.s "b"]] =
      some "1\n00:00:01,000 --> 00:00:02,000\na\n\n2\n00:01:01.000 --> 00:01:02.000\nb\n\n" ∧
    get_time_str 61 ≠ "00:01:01,000" := by
  refine ⟨?_, by decide, by rw [get_time_str_61]; decide⟩
  have hs : srtShiftLine 1 60 [SField.i 1, SField.s "00:00:01,000", SField.s "00:00:02,000",
      SField.s "b"] = some [SField.i 2, SField.s "00:01:01.000", SField.s "00:01:02.000",
      SField.s "b"] := by
    simp only [srtShiftLine, parse_tf_1, parse_tf_2]
    norm_num [get_time_str_61, get_time_str_62]
  have hall : srtShiftAll 1 60 [[SField.i 1, SField.s "00:00:01,000", SField.s "00:00:02,000",
      SField.s "b"]] = some [[SField.i 2, SField.s "00:01:01.000", SField.s "00:01:02.000",
      SField.s "b"]] := by
    simp only [srtShiftAll, hs]
  have hlast : [[SField.i 1, SField.s "00:00:01,000", SField.s "00:00:02,000",
      SField.s "a"]].getLast? = some [SField.i 1, SField.s "00:00:01,000",
      SField.s "00:00:02,000", SField.s "a"] := by decide
  have hget : ([SField.i 1, SField.s "00:00:01,000", SField.s "00:00:02,000",
      SField.s "a"] : List SField).get? 0 = some (SField.i 1) := by decide
  simp only [append_srt, hlast, hget, hall]
  decide

/-- C6 (amended): period-separated timestamps are accepted on input, but the
serializer performs no comma canonicalization: a parsed period-form entry is
stored and re-emitted verbatim with its periods, and entries appended by a
merge are re-formatted by get_time_str, whose output is period-separated
HH:MM:SS.mmm. -/
theorem srt_period_accepted_no_canonicalization :
    SRT_init "1\n00:00:01.000 --> 00:00:02.000\nx\n" =
      some [[SField.i 1, SField.s "00:00:01.000", SField.s "00:00:02.000", SField.s "x"]] ∧
    SRT_dump_file []
      [[SField.i 1, SField.s "00:00:01.000", SField.s "00:00:02.000", SField.s "x"]] =
      some "1\n00:00:01.000 --> 00:00:02.000\nx\n\n" ∧
    append_srt
      [[SField.i 1, SField.s "00:00:01,000", SField.s "00:00:02,000", SField.s "a"]]
      [[SField.i 1, SField.s "00:00:03,000", SField.s "00:00:04,000", SField.s "b"]]
      (2881 / 2) =
      some [[SField.i 1, SField.s "00:00:01,000", SField.s "00:00:02,000", SField.s "a"],
            [SField.i 2, SField.s "00:24:03.500", SField.s "00:24:04.500", SField.s "b"]] := by
  refine ⟨by decide, by decide, ?_⟩
  have hs : srtShiftLine 1 (2881 / 2) [SField.i 1, SField.s "00:00:03,000",
      SField.s "00:00:04,000", SField.s "b"] = some [SField.i 2, SField.s "00:24:03.500",
      SField.s "00:24:04.500", SField.s "b"] := by
    simp only [srtShiftLine, parse_tf_3, parse_tf_4]
    norm_num [get_time_str_shift3, get_time_str_shift4]
  have hall : srtShiftAll 1 (2881 / 2) [[SField.i 1, SField.s "00:00:03,000",
      SField.s "00:00:04,000", SField.s "b"]] = some [[SField.i 2, SField.s "00:24:03.500",
      SField.s "00:24:04.500", SField.s "b"]] := by
    simp only [srtShiftAll, hs]
  have hlast : [[SField.i 1, SField.s "00:00:01,000", SField.s "00:00:02,000",
      SField.s "a"]].getLast? = some [SField.i 1, SField.s "00:00:01,000",
      SField.s "00:00:02,000", SField.s "a"] := by decide
  have hget : ([SField.i 1, SField.s "00:00:01,000", SField.s "00:00:02,000",
      SField.s "a"] : List SField).get? 0 = some (SField.i 1) := by decide
  simp only [append_srt, hlast, hget, hall]
  decide

/-! ### ASS style reconciliation and merge (Subtitle.append_ass, lines 309-333) -/

/-- A parsed ASS style: the Name attribute plus the remaining attributes in
file order.  Python compares styles by repr(style), the attribute dict,
modelled as structural equality of this record. -/
structure Style where
  Name : String
  rest : List (String × String)
deriving DecidableEq, Repr

/-- A parsed ASS event: Start and End in seconds (timedelta), the Style
reference, and the remaining attributes. -/
structure Event where
  Start : ℚ
  End : ℚ
  Style : String
  rest : List (String × String)
deriving DecidableEq, Repr

def maxNameLen : List Style → ℕ
  | [] => 0
  | t :: ts => max t.Name.length (maxNameLen ts)

theorem length_le_maxNameLen : ∀ (styles : List Style) (n : String),
    n ∈ styles.map Style.Name → n.length ≤ maxNameLen styles
  | [], n, h => by simp at h
  | t :: ts, n, h => by
    simp only [List.map_cons, List.mem_cons] at h
    rcases h with h | h
    · simp [maxNameLen, h, le_max_left]
    · exact le_trans (length_le_maxNameLen ts n h) (by simp [maxNameLen])

/-- The while-loop of lines 316-320: while the name clashes with a style of
the growing base, append the suffix 1; stop with none when the suffixed
style collides with a known repr (the flag path, lines 318-321), and with
the uniquely renamed style otherwise. -/
def renameLoop (styles info : List Style) (s : Style) : Option Style :=
  if h : s.Name ∈ styles.map Style.Name then
    if (⟨s.Name ++ "1", s.rest⟩ : Style) ∈ info then none
    else renameLoop styles info ⟨s.Name ++ "1", s.rest⟩
  else some s
termination_by maxNameLen styles + 1 - s.Name.length
decreasing_by
  have hle := length_le_maxNameLen styles s.Name h
  have hlen : (s.Name ++ "1").length = s.Name.length + 1 := by
    rw [String.length_append]
    rfl
  simp only [hlen]
  omega

theorem renameLoop_some_not_mem : ∀ (styles info : List Style) (s s' : Style),
    renameLoop styles info s = some s' → s'.Name ∉ styles.map Style.Name := by
  intro styles info s
  generalize hfuel : maxNameLen styles + 1 - s.Name.length = fuel
  induction fuel generalizing s with
  | zero =>
    intro s' h
    rw [renameLoop] at h
    split at h
    · rename_i hmem
      have := length_le_maxNameLen styles s.Name hmem
      omega
    · rename_i hmem
      simp only [Option.some.injEq] at h
      subst h
      exact hmem
  | succ n ih =>
    intro s' h
    rw [renameLoop] at h
    split at h
    · rename_i hmem
      split at h
      · exact absurd h (by simp)
      · have := length_le_maxNameLen styles s.Name hmem
        have hlen : (s.Name ++ "1").length = s.Name.length + 1 := by
          rw [String.length_append]
          rfl
        exact ih ⟨s.Name ++ "1", s.rest⟩ (by simp only [hlen]; omega) s' h
    · rename_i hmem
      simp only [Option.some.injEq] at h
      subst h
      exact hmem

/-- Python dict assignment style_name_map with overwrite semantics. -/
def updMap (m : List (String × String)) (k v : String) : List (String × String) :=
  m.filter (fun p => p.1 ≠ k) ++ [(k, v)]

/-- One iteration of the style loop (lines 312-325): drop a style whose repr
already exists, otherwise rename until unique (or drop on repr collision)
and append to both the style list and the repr set. -/
def mergeOneStyle : List Style × List Style × List (String × String) → Style →
    List Style × List Style × List (String × String)
  | (styles, info, smap), s =>
    if s ∈ info then (styles, info, smap)
    else
      match renameLoop styles info s with
      | none => (styles, info, smap)
      | some s' => (styles ++ [s'], info ++ [s'], updMap smap s.Name s'.Name)

/-- The whole style-reconciliation pass: the repr set starts as the base's
styles (line 310), the name map empty (line 311). -/
def mergeStyles (base newStyles : List Style) : List Style × List (String × String) :=
  let r := newStyles.foldl mergeOneStyle (base, base, [])
  (r.1, r.2.2)

structure AssModel where
  styles : List Style
  events : List Event
deriving DecidableEq, Repr

/-- ASS branch of Subtitle.append_ass (lines 309-333): reconcile styles,
then shift every incoming event and rewrite its style through the map. -/
def append_ass_model (base other : AssModel) (shift : ℚ) : AssModel :=
  let ms := mergeStyles base.styles other.styles
  ⟨ms.1,
   base.events ++ other.events.map (fun e =>
     ⟨e.Start + shift, e.End + shift,
      match List.lookup e.Style ms.2 with
      | some n => n
      | none => e.Style,
      e.rest⟩)⟩

theorem mergeFold_nodup : ∀ (new styles info : List Style) (smap : List (String × String)),
    (styles.map Style.Name).Nodup →
    ((new.foldl mergeOneStyle (styles, info, smap)).1.map Style.Name).Nodup
  | [], _, _, _, h => h
  | s :: ss, styles, info, smap, h => by
    simp only [List.foldl]
    by_cases hin : s ∈ info
    · simp only [mergeOneStyle, if_pos hin]
      exact mergeFold_nodup ss styles info smap h
    · cases hr : renameLoop styles info s with
      | none =>
        simp only [mergeOneStyle, if_neg hin, hr]
        exact mergeFold_nodup ss styles info smap h
      | some s' =>
        simp only [mergeOneStyle, if_neg hin, hr]
        apply mergeFold_nodup
        have hnm := renameLoop_some_not_mem styles info s s' hr
        rw [List.map_append]
        refine List.Nodup.append h (List.nodup_singleton _) ?_
        intro x hx1 hx2
        simp only [List.map_cons, List.map_nil, List.mem_singleton] at hx2
        exact hnm (hx2 ▸ hx1)

/-- C5: after any sequence of ASS-into-ASS merges starting from a base whose
style names are distinct, the style names remain distinct; and merging two
files that each define a style named Default with differing font sizes keeps
both as Default and Default1, with the second file's events rewritten to
reference Default1. -/
theorem ass_merge_style_uniqueness :
    (∀ (base : AssModel) (ms : List (AssModel × ℚ)),
      (base.styles.map Style.Name).Nodup →
      ((ms.foldl (fun b p => append_ass_model b p.1 p.2) base).styles.map Style.Name).Nodup) ∧
    append_ass_model ⟨[⟨"Default", [("Fontsize", "40")]⟩], []⟩
        ⟨[⟨"Default", [("Fontsize", "50")]⟩], [⟨10, 20, "Default", []⟩]⟩ 5 =
      ⟨[⟨"Default", [("Fontsize", "40")]⟩, ⟨"Default1", [("Fontsize", "50")]⟩],
       [⟨15, 25, "Default1", []⟩]⟩ := by
  constructor
  · intro base ms
    induction ms generalizing base with
    | nil => exact fun h => h
    | cons m rest ih =>
      intro h
      refine ih (append_ass_model base m.1 m.2) ?_
      simp only [append_ass_model, mergeStyles]
      exact mergeFold_nodup m.1.styles base.styles base.styles [] h
  · simp [append_ass_model, mergeStyles, mergeOneStyle, renameLoop, updMap, List.lookup]
    norm_num

theorem ass_merge_style_uniqueness_witness :
    (([⟨"A", []⟩] : List Style).map Style.Name).Nodup ∧
    ((([((⟨[⟨"A", [("Fontsize", "9")]⟩], []⟩ : AssModel), (0 : ℚ))]).foldl
      (fun b p => append_ass_model b p.1 p.2)
      (⟨[⟨"A", []⟩], []⟩ : AssModel)).styles.map Style.Name).Nodup :=
  ⟨by decide, ass_merge_style_uniqueness.1 ⟨[⟨"A", []⟩], []⟩ _ (by decide)⟩

/-! ### MPLS decoder (Chapter.__init__, lines 33-93) -/

/-- Big-endian unsigned read of n bytes at pos; none models struct.error
when the file ends before n bytes are available (_unpack_byte, lines 91-93). -/
def readU (bs : List ℕ) (pos n : ℕ) : Option ℕ :=
  if pos + n ≤ bs.length then
    some (((bs.drop pos).take n).foldl (fun a b => a * 256 + b) 0)
  else none

/-- One play-item of Chapter.in_out_time: the 5 raw clip-name bytes and the
in/out times in 45 kHz ticks (lines 67-76). -/
structure MplsPlayItem where
  clip : List ℕ
  inTime : ℕ
  outTime : ℕ
deriving DecidableEq, Repr

/-- The play-item loop (lines 67-76): read the u16 record length at pos; for
a non-empty record read the clip name at pos+2, skip 7 bytes, read in_time
and out_time; in every case continue at pos + length + 2.  No verification
that the fields consumed the declared length. -/
def parsePlayItems (bs : List ℕ) : ℕ → ℕ → Option (List MplsPlayItem)
  | _, 0 => some []
  | pos, n + 1 =>
    match readU bs pos 2 with
    | none => none
    | some len =>
      if len ≠ 0 then
        match readU bs (pos + 14) 4, readU bs (pos + 18) 4 with
        | some it, some ot =>
          match parsePlayItems bs (pos + len + 2) n with
          | some rest => some (⟨(bs.drop (pos + 2)).take 5, it, ot⟩ :: rest)
          | none => none
        | _, _ => none
      else
        parsePlayItems bs (pos + len + 2) n

/-- The playlist-mark loop (lines 81-89): per mark skip 2 bytes, u16
ref_to_play_item_id, u32 mark_timestamp, skip 6 bytes; 14 bytes per mark. -/
def parseMarks (bs : List ℕ) : ℕ → ℕ → Option (List (ℕ × ℕ))
  | _, 0 => some []
  | pos, n + 1 =>
    match readU bs (pos + 2) 2, readU bs (pos + 4) 4 with
    | some ref, some ts =>
      match parseMarks bs (pos + 14) n with
      | some rest => some ((ref, ts) :: rest)
      | none => none
    | _, _ => none

structure MplsData where
  items : List MplsPlayItem
  marks : List (ℕ × ℕ)
deriving DecidableEq, Repr

/-- Chapter.mark_info: the timestamps grouped by ref_to_play_item_id in
encounter order (lines 86-89). -/
def markInfoOf (ms : List (ℕ × ℕ)) (r : ℕ) : List ℕ :=
  (ms.filter (fun p => p.1 = r)).map Prod.snd

/-- Chapter.__init__ (lines 58-89): u32 offsets at bytes 8 and 12, play-item
count at start+6, records from start+10; mark count at mark_start+4, marks
from mark_start+6. -/
def Chapter_init (bs : List ℕ) : Option MplsData :=
  match readU bs 8 4, readU bs 12 4 with
  | some ps, some pms =>
    match readU bs (ps + 6) 2 with
    | some nbItems =>
      match parsePlayItems bs (ps + 10) nbItems with
      | some items =>
        match readU bs (pms + 4) 2 with
        | some nbMarks =>
          match parseMarks bs (pms + 6) nbMarks with
          | some marks => some ⟨items, marks⟩
          | none => none
        | none => none
      | none => none
    | none => none
  | _, _ => none

/-- A well-formed single-item single-mark MPLS fixture: header, play-item
record of declared length 20 exactly covering its fields, one mark. -/
def mplsFixtureOk : List ℕ :=
  [0, 0, 0, 0, 0, 0, 0, 0,
   0, 0, 0, 16,
   0, 0, 0, 48,
   0, 0, 0, 0, 0, 0,
   0, 1,
   0, 0,
   0, 20,
   48, 48, 48, 48, 48,
   0, 0, 0, 0, 0, 0, 0,
   0, 0, 0, 0,
   0, 0, 175, 200,
   0, 0, 0, 0,
   0, 1,
   0, 0,
   0, 0,
   0, 0, 0, 0,
   0, 0, 0, 0, 0, 0]

/-- The same fixture with the record length declared as 30 instead of 20:
ten padding bytes follow the fields inside the record, so the fields do not
consume the declared length.  The mark section moves to byte 58 and holds no
marks. -/
def mplsFixtureSlack : List ℕ :=
  [0, 0, 0, 0, 0, 0, 0, 0,
   0, 0, 0, 16,
   0, 0, 0, 58,
   0, 0, 0, 0, 0, 0,
   0, 1,
   0, 0,
   0, 30,
   48, 48, 48, 48, 48,
   0, 0, 0, 0, 0, 0, 0,
   0, 0, 0, 0,
   0, 0, 175, 200,
   0, 0, 0, 0, 0, 0, 0, 0, 0, 0,
   0, 0, 0, 0,
   0, 0]

/-- The well-formed fixture truncated in the middle of out_time. -/
def mplsFixtureTruncated : List ℕ :=
  [0, 0, 0, 0, 0, 0, 0, 0,
   0, 0, 0, 16,
   0, 0, 0, 48,
   0, 0, 0, 0, 0, 0,
   0, 1,
   0, 0,
   0, 20,
   48, 48, 48, 48, 48,
   0, 0, 0, 0, 0, 0, 0,
   0, 0, 0, 0,
   0, 0]

/-- C8 counterexample: a play-item record whose declared length (30) is not
consumed by its fields (20 bytes) parses without any error; the decoder
simply seeks to the declared record end.  The claim's parse error does not
occur. -/
theorem mpls_no_consumption_check :
    Chapter_init mplsFixtureSlack =
      some ⟨[⟨[48, 48, 48, 48, 48], 0, 45000⟩], []⟩ := by decide

/-- C8 (amended): the decoder maps a well-formed file to the Playlist value,
and fails (struct.error, modelled as none) when a required field is
truncated by end of file; length-prefixed records however are not checked
for consuming their declared byte count. -/
theorem mpls_decode_ok_and_truncation_error :
    Chapter_init mplsFixtureOk =
      some ⟨[⟨[48, 48, 48, 48, 48], 0, 45000⟩], [(0, 0)]⟩ ∧
    Chapter_init mplsFixtureTruncated = none := by
  constructor <;> decide

/-! ### OGM chapter text synthesis (BluraySubtitle.add_chapter_to_mkv, lines 726-782) -/

def joinLines : List String → String
  | [] => ""
  | [s] => s
  | s :: rest => s ++ "\n" ++ joinLines rest

/-- The inline HH:MM:SS.mmm formatting of lines 761-768: hours and minutes
zero-padded to two digits, seconds taken from str(float), truncated to six
characters and right-padded from the template 00.000. -/
def ogmTimeStr (rt : ℚ) : String :=
  let hours : ℤ := ⌊rt / 3600⌋
  let minutes : ℤ := ⌊(rt - 3600 * ⌊rt / 3600⌋) / 60⌋
  let seconds : ℚ := rt - 60 * ⌊rt / 60⌋
  let s0 := (if seconds < 10 then "0" else "") ++ pyFloatStr seconds
  let s1 := String.mk (s0.toList.take 6)
  let sstr := s1 ++ String.mk ("00.000".toList.drop
    (if s1.length < 6 then s1.length else s1.length - 6))
  (if hours < 10 then "0" else "") ++ intRepr hours ++ ":" ++
    (if minutes < 10 then "0" else "") ++ intRepr minutes ++ ":" ++ sstr

structure OgmState where
  pdts : ℚ
  edts : ℚ
  cid : ℕ
  text : List String
  durs : List ℚ
  dur : ℚ
  outs : List String
deriving DecidableEq, Repr

/-- One mark of the loop at lines 741-770: compute the playlist-relative
time, flush chapter.txt and advance to the next MKV when it matches the
current MKV duration within 0.1 s, then append the two OGM lines with a
two-digit zero-padded chapter id. -/
def ogmMark (inT : ℕ) (st : OgmState) (mark : ℕ) : Option OgmState :=
  let rt := st.pdts + ((mark : ℚ) - (inT : ℚ)) / 45000 - st.edts
  let flushed : Option (OgmState × ℚ) :=
    if |rt - st.dur| < 1 / 10 then
      match st.durs with
      | [] => none
      | d :: rest =>
        some (⟨st.pdts, st.edts + rt, 0, [], rest, d,
          st.outs ++ [joinLines st.text]⟩, 0)
    else some (st, rt)
  match flushed with
  | none => none
  | some (st1, rt1) =>
    let cid := st1.cid + 1
    let cidStr := (if cid < 10 then "0" else "") ++ Nat.repr cid
    some ⟨st1.pdts, st1.edts, cid,
      st1.text ++ ["CHAPTER" ++ cidStr ++ "=" ++ ogmTimeStr rt1,
        "CHAPTER" ++ cidStr ++ "NAME=Chapter " ++ cidStr],
      st1.durs, st1.dur, st1.outs⟩

def ogmMarksRun (inT : ℕ) : OgmState → List ℕ → Option OgmState
  | st, [] => some st
  | st, m :: ms =>
    match ogmMark inT st m with
    | none => none
    | some st' => ogmMarksRun inT st' ms

/-- Iteration over chapter.mark_info.items(): each entry is the referenced
play-item's in_time, out_time and its mark list; the play-item duration is
accumulated after the marks (line 771), and only play-items that own marks
are visited. -/
def ogmItemsRun : OgmState → List (ℕ × ℕ × List ℕ) → Option OgmState
  | st, [] => some st
  | st, e :: rest =>
    match ogmMarksRun e.1 st e.2.2 with
    | none => none
    | some st' =>
      ogmItemsRun { st' with pdts := st'.pdts + ((e.2.1 : ℚ) - (e.1 : ℚ)) / 45000 } rest

/-- add_chapter_to_mkv restricted to its pure output: the sequence of
chapter.txt contents it writes (intermediate flushes plus the final write at
lines 773-774), given the MKV durations the tool adapter reports. -/
def add_chapter_texts (entries : List (ℕ × ℕ × List ℕ)) (durations : List ℚ) :
    Option (List String) :=
  match durations with
  | [] => none
  | d :: rest =>
    match ogmItemsRun ⟨0, 0, 0, [], rest, d, []⟩ entries with
    | none => none
    | some st => some (st.outs ++ [joinLines st.text])

theorem fracDigitsAux_zero (n : ℕ) : fracDigitsAux 0 n = [] := by
  cases n <;> simp [fracDigitsAux]

theorem pyFloatStr_0 : pyFloatStr 0 = "0.0" := by
  unfold pyFloatStr
  norm_num [fracDigitsAux_zero]
  decide

theorem pyFloatStr_half : pyFloatStr (1 / 2) = "0.5" := by
  have hf : fracDigitsAux (1 / 2) 20 = [5] := by
    rw [(by rfl : (20 : ℕ) = 19 + 1), fracDigitsAux]
    norm_num [fracDigitsAux_zero]
    decide
  unfold pyFloatStr
  norm_num [hf]
  decide

theorem pyFloatStr_5_4 : pyFloatStr (5 / 4) = "1.25" := by
  have hf : fracDigitsAux (1 / 4) 20 = [2, 5] := by
    rw [(by rfl : (20 : ℕ) = 19 + 1), fracDigitsAux]
    norm_num
    rw [(by rfl : (19 : ℕ) = 18 + 1), fracDigitsAux]
    norm_num [fracDigitsAux_zero]
    decide
  unfold pyFloatStr
  norm_num [hf]
  decide

set_option maxHeartbeats 2000000 in
theorem ogm_time_0 : ogmTimeStr 0 = "00:00:00.000" := by
  unfold ogmTimeStr
  norm_num [pyFloatStr_0]
  decide

set_option maxHeartbeats 2000000 in
theorem ogm_time_720_5 : ogmTimeStr (1441 / 2) = "00:12:00.500" := by
  unfold ogmTimeStr
  norm_num [pyFloatStr_half]
  decide

set_option maxHeartbeats 2000000 in
theorem ogm_time_1441_25 : ogmTimeStr (5765 / 4) = "00:24:01.250" := by
  unfold ogmTimeStr
  norm_num [pyFloatStr_5_4]
  decide

set_option maxHeartbeats 4000000 in
/-- C9: three chapter marks at playlist offsets 0, 720.5 and 1441.25 seconds
produce literally the six OGM lines with two-digit zero-padded chapter ids
and HH:MM:SS.mmm offsets, joined by newlines. -/
theorem ogm_chapter_text_literal :
    add_chapter_texts [(0, 129600000, [0, 32422500, 64856250])] [1000000] =
      some ["CHAPTER01=00:00:00.000\nCHAPTER01NAME=Chapter 01\nCHAPTER02=00:12:00.500\nCHAPTER02NAME=Chapter 02\nCHAPTER03=00:24:01.250\nCHAPTER03NAME=Chapter 03"] := by
  have h1 : ogmMark 0 ⟨0, 0, 0, [], [], 1000000, []⟩ 0 =
      some ⟨0, 0, 1, ["CHAPTER01=00:00:00.000", "CHAPTER01NAME=Chapter 01"], [], 1000000, []⟩ := by
    unfold ogmMark
    norm_num [abs_lt, ogm_time_0]
    decide
  have h2 : ogmMark 0 ⟨0, 0, 1, ["CHAPTER01=00:00:00.000", "CHAPTER01NAME=Chapter 01"], [], 1000000, []⟩ 32422500 =
      some ⟨0, 0, 2, ["CHAPTER01=00:00:00.000", "CHAPTER01NAME=Chapter 01", "CHAPTER02=00:12:00.500", "CHAPTER02NAME=Chapter 02"], [], 1000000, []⟩ := by
    unfold ogmMark
    norm_num [abs_lt, ogm_time_720_5]
    decide
  have h3 : ogmMark 0 ⟨0, 0, 2, ["CHAPTER01=00:00:00.000", "CHAPTER01NAME=Chapter 01", "CHAPTER02=00:12:00.500", "CHAPTER02NAME=Chapter 02"], [], 1000000, []⟩ 64856250 =
      some ⟨0, 0, 3, ["CHAPTER01=00:00:00.000", "CHAPTER01NAME=Chapter 01", "CHAPTER02=00:12:00.500", "CHAPTER02NAME=Chapter 02", "CHAPTER03=00:24:01.250", "CHAPTER03NAME=Chapter 03"], [], 1000000, []⟩ := by
    unfold ogmMark
    norm_num [abs_lt, ogm_time_1441_25]
    decide
  have hrun : ogmMarksRun 0 ⟨0, 0, 0, [], [], 1000000, []⟩ [0, 32422500, 64856250] =
      some ⟨0, 0, 3, ["CHAPTER01=00:00:00.000", "CHAPTER01NAME=Chapter 01", "CHAPTER02=00:12:00.500", "CHAPTER02NAME=Chapter 02", "CHAPTER03=00:24:01.250", "CHAPTER03NAME=Chapter 03"], [], 1000000, []⟩ := by
    simp only [ogmMarksRun, h1, h2, h3]
  have hitems : ogmItemsRun ⟨0, 0, 0, [], [], 1000000, []⟩
      [(0, 129600000, [0, 32422500, 64856250])] =
      some ⟨2880, 0, 3, ["CHAPTER01=00:00:00.000", "CHAPTER01NAME=Chapter 01", "CHAPTER02=00:12:00.500", "CHAPTER02NAME=Chapter 02", "CHAPTER03=00:24:01.250", "CHAPTER03NAME=Chapter 03"], [], 1000000, []⟩ := by
    simp only [ogmItemsRun, hrun]
    norm_num [ogmItemsRun]
  simp only [add_chapter_texts, hitems]
  decide

/-! ### Alignment engine (BluraySubtitle.generate_configuration, no-override branch, lines 649-700) -/

/-- One play-item with its chapter marks: in_time and out_time in 45 kHz
ticks, and the mark timestamps of mark_info.get(i) in file order (an item
with no marks carries the empty list, which Python treats as falsy exactly
like the absent dict key). -/
structure PlayItem where
  inTime : ℤ
  outTime : ℤ
  marks : List ℤ
deriving DecidableEq, Repr

structure Playlist where
  items : List PlayItem
deriving DecidableEq, Repr

/-- Chapter.get_total_time (lines 95-96). -/
def totalTime (pl : Playlist) : ℚ :=
  (pl.items.map (fun it => ((it.outTime : ℚ) - (it.inTime : ℚ)) / 45000)).sum

/-- One placement of the configuration dict: the 1-based BDMV index, the
chapter index and the offset in seconds (stored by the source through
get_time_str). -/
structure Cfg where
  bdmvIndex : ℕ
  chapterIndex : ℕ
  offset : ℚ
deriving DecidableEq, Repr

/-- The siamese-disc scan of lines 678-690: walk all marks of the play-item
with a counter k starting at j and pre-incremented, advance an episode at
every mark whose boundary strictly exceeds sub_end_time while the clip tail
past the mark exceeds 1200 s.  The unguarded access to the next subtitle is
an IndexError when no subtitle is left, modelled as none. -/
def siameseLoop (D : List ℚ) (b : ℕ) (startTime : ℤ) (it : PlayItem) :
    List ℤ → ℕ → ℕ × ℚ × List (ℕ × Cfg) → Option (ℕ × ℚ × List (ℕ × Cfg))
  | [], _, st => some st
  | m :: ms, k, (si, se, plan) =>
    let ts : ℚ := ((startTime + m - it.inTime : ℤ) : ℚ) / 45000
    if ts > se ∧ ((it.outTime - m : ℤ) : ℚ) / 45000 > 1200 then
      match D.get? (si + 1) with
      | none => none
      | some d =>
        siameseLoop D b startTime it ms (k + 1)
          (si + 1, ts + d, plan ++ [(si + 1, ⟨b, k + 1, ts⟩)])
    else siameseLoop D b startTime it ms (k + 1) (si, se, plan)

/-- The body of the play-item loop (lines 661-694) for one play-item: the
first-mark advance of lines 666-676, then the siamese scan of lines 678-690.
The state after the first-mark advance is inlined into both branches of the
advance condition. -/
def itemStep (D : List ℚ) (b : ℕ) (j : ℕ) (startTime : ℤ) (leftTime : ℚ)
    (it : PlayItem) (st : ℕ × ℚ × List (ℕ × Cfg)) :
    Option (ℕ × ℚ × List (ℕ × Cfg)) :=
  match it.marks with
  | [] => some st
  | m0 :: _ =>
    match st with
    | (si, se, plan) =>
      let ts : ℚ := ((startTime + m0 - it.inTime : ℤ) : ℚ) / 45000
      if ts > se - 300 ∧ si + 1 < D.length ∧ leftTime > D.getD (si + 1) 0 - 180 then
        if ((it.outTime - it.inTime : ℤ) : ℚ) / 45000 > 2600 ∧
            (ts + D.getD (si + 1) 0) - ts < 1800 then
          siameseLoop D b startTime it it.marks j
            (si + 1, ts + D.getD (si + 1) 0, plan ++ [(si + 1, ⟨b, j, ts⟩)])
        else some (si + 1, ts + D.getD (si + 1) 0, plan ++ [(si + 1, ⟨b, j, ts⟩)])
      else
        if ((it.outTime - it.inTime : ℤ) : ℚ) / 45000 > 2600 ∧ se - ts < 1800 then
          siameseLoop D b startTime it it.marks j (si, se, plan)
        else some (si, se, plan)

/-- The play-item loop (lines 661-694): after each item advance the chapter
counter by the item's mark count, the start time by the item duration in
ticks, and decrease the remaining time. -/
def itemLoop (D : List ℚ) (b : ℕ) :
    List PlayItem → ℕ → ℤ → ℚ → ℕ × ℚ × List (ℕ × Cfg) →
    Option (ℕ × ℚ × List (ℕ × Cfg))
  | [], _, _, _, st => some st
  | it :: rest, j, startTime, leftTime, st =>
    match itemStep D b j startTime leftTime it st with
    | none => none
    | some st' =>
      itemLoop D b rest (j + it.marks.length) (startTime + (it.outTime - it.inTime))
        (leftTime + ((it.inTime : ℚ) - (it.outTime : ℚ)) / 45000) st'

/-- The playlist loop (lines 650-698): at each playlist record the current
episode at chapter 1 offset 0, run the play-item loop, advance the episode
index, and stop when all subtitles are placed. -/
def playlistLoop (D : List ℚ) :
    List Playlist → ℕ → ℕ × ℚ × List (ℕ × Cfg) → Option (ℕ × ℚ × List (ℕ × Cfg))
  | [], _, st => some st
  | pl :: rest, b, (si, se, plan) =>
    match D.get? si with
    | none => none
    | some d =>
      match itemLoop D b pl.items 1 0 (totalTime pl) (si, d, plan ++ [(si, ⟨b, 1, 0⟩)]) with
      | none => none
      | some (si', se', plan') =>
        if si' + 1 = D.length then some (si' + 1, se', plan')
        else playlistLoop D rest (b + 1) (si' + 1, se', plan')

/-- generate_configuration without user overrides (lines 649-700), for a
non-empty subtitle list: the playlists in table order with 1-based BDMV
indices, and the per-episode durations D.  The result is the configuration
as the ordered list of (episode index, placement) pairs. -/
def generate_configuration (pls : List Playlist) (D : List ℚ) :
    Option (List (ℕ × Cfg)) :=
  match playlistLoop D pls 1 (0, 0, []) with
  | none => none
  | some st => some st.2.2





/-- The lexicographic non-strict order on (bdmv index, chapter index). -/
def pairLe (a b : ℕ × ℕ) : Prop :=
  a.1 < b.1 ∨ (a.1 = b.1 ∧ a.2 ≤ b.2)

def pairsOf (plan : List (ℕ × Cfg)) : List (ℕ × ℕ) :=
  plan.map (fun e => (e.2.bdmvIndex, e.2.chapterIndex))

theorem pairLe_trans {a b c : ℕ × ℕ} (h1 : pairLe a b) (h2 : pairLe b c) : pairLe a c := by
  rcases h1 with h1 | ⟨h1, h1'⟩ <;> rcases h2 with h2 | ⟨h2, h2'⟩
  · exact Or.inl (lt_trans h1 h2)
  · exact Or.inl (h2 ▸ h1)
  · exact Or.inl (h1 ▸ h2)
  · exact Or.inr ⟨h1.trans h2, le_trans h1' h2'⟩

theorem mem_of_getLast? {α : Type} : ∀ {l : List α} {a : α}, l.getLast? = some a → a ∈ l
  | [], a, h => by simp at h
  | [x], a, h => by
    simp only [List.getLast?_singleton, Option.some.injEq] at h
    simp [h]
  | x :: y :: ys, a, h => by
    rw [List.getLast?_cons_cons] at h
    exact List.mem_cons_of_mem _ (mem_of_getLast? h)

theorem chain'_concat {l : List (ℕ × ℕ)} {y : ℕ × ℕ}
    (hc : List.Chain' pairLe l) (hall : ∀ x ∈ l, pairLe x y) :
    List.Chain' pairLe (l ++ [y]) := by
  rw [List.chain'_append]
  refine ⟨hc, List.chain'_singleton y, ?_⟩
  intro x hx z hz
  rw [List.head?_cons, Option.mem_def, Option.some.injEq] at hz
  subst hz
  rw [Option.mem_def] at hx
  exact hall x (mem_of_getLast? hx)

/-- The invariant carried through one playlist: placements are ordered,
bounded by the current (bdmv, chapter) position, and the recorded episode
indices are exactly 0..si. -/
def EngInv (b j si : ℕ) (plan : List (ℕ × Cfg)) : Prop :=
  List.Chain' pairLe (pairsOf plan) ∧
  (∀ e ∈ plan, pairLe (e.2.bdmvIndex, e.2.chapterIndex) (b, j)) ∧
  plan.map Prod.fst = List.range (si + 1)

/-- The invariant between playlists: all placements are in earlier BDMVs and
the recorded episode indices are exactly 0..si-1. -/
def MidInv (b si : ℕ) (plan : List (ℕ × Cfg)) : Prop :=
  List.Chain' pairLe (pairsOf plan) ∧
  (∀ e ∈ plan, e.2.bdmvIndex < b) ∧
  plan.map Prod.fst = List.range si

theorem EngInv_mono {b j j' si : ℕ} {plan : List (ℕ × Cfg)} (hj : j ≤ j')
    (h : EngInv b j si plan) : EngInv b j' si plan := by
  obtain ⟨hc, hb, hk⟩ := h
  refine ⟨hc, ?_, hk⟩
  intro e he
  exact pairLe_trans (hb e he) (Or.inr ⟨rfl, hj⟩)

theorem EngInv_append {b j si : ℕ} {plan : List (ℕ × Cfg)}
    (h : EngInv b j si plan) (off : ℚ) :
    EngInv b j (si + 1) (plan ++ [(si + 1, ⟨b, j, off⟩)]) := by
  obtain ⟨hc, hb, hk⟩ := h
  refine ⟨?_, ?_, ?_⟩
  · rw [pairsOf, List.map_append]
    exact chain'_concat hc (fun x hx => by
      obtain ⟨e, he, rfl⟩ := List.mem_map.1 hx
      exact hb e he)
  · intro e he
    rcases List.mem_append.1 he with he | he
    · exact hb e he
    · simp only [List.mem_singleton] at he
      subst he
      exact Or.inr ⟨rfl, le_refl _⟩
  · rw [List.map_append, hk]
    simp [List.range_succ]

theorem MidInv_start {b si : ℕ} {plan : List (ℕ × Cfg)} (h : MidInv b si plan) :
    EngInv b 1 si (plan ++ [(si, ⟨b, 1, 0⟩)]) := by
  obtain ⟨hc, hb, hk⟩ := h
  refine ⟨?_, ?_, ?_⟩
  · rw [pairsOf, List.map_append]
    exact chain'_concat hc (fun x hx => by
      obtain ⟨e, he, rfl⟩ := List.mem_map.1 hx
      exact Or.inl (hb e he))
  · intro e he
    rcases List.mem_append.1 he with he | he
    · exact Or.inl (hb e he)
    · simp only [List.mem_singleton] at he
      subst he
      exact Or.inr ⟨rfl, le_refl _⟩
  · rw [List.map_append, hk]
    simp [List.range_succ]

theorem siameseLoop_inv (D : List ℚ) (b : ℕ) (s : ℤ) (it : PlayItem) :
    ∀ (ms : List ℤ) (k si : ℕ) (se : ℚ) (plan : List (ℕ × Cfg))
      (st' : ℕ × ℚ × List (ℕ × Cfg)),
    siameseLoop D b s it ms k (si, se, plan) = some st' →
    EngInv b k si plan → EngInv b (k + ms.length) st'.1 st'.2.2
  | [], k, si, se, plan, st', h, hinv => by
    simp only [siameseLoop, Option.some.injEq] at h
    subst h
    simpa using hinv
  | m :: ms, k, si, se, plan, st', h, hinv => by
    simp only [siameseLoop] at h
    have hl : k + (m :: ms).length = (k + 1) + ms.length := by
      simp only [List.length_cons]
      omega
    split at h
    · cases hd : D.get? (si + 1) with
      | none => rw [hd] at h; exact absurd h (by simp)
      | some d =>
        rw [hd] at h
        have hrec := siameseLoop_inv D b s it ms (k + 1) (si + 1) _ _ st' h
          (EngInv_append (EngInv_mono (Nat.le_succ k) hinv) _)
        rw [hl]
        exact hrec
    · have hrec := siameseLoop_inv D b s it ms (k + 1) si se plan st' h
        (EngInv_mono (Nat.le_succ k) hinv)
      rw [hl]
      exact hrec

theorem itemStep_inv (D : List ℚ) (b j : ℕ) (s : ℤ) (l : ℚ) (it : PlayItem)
    (si : ℕ) (se : ℚ) (plan : List (ℕ × Cfg)) (st' : ℕ × ℚ × List (ℕ × Cfg))
    (h : itemStep D b j s l it (si, se, plan) = some st')
    (hinv : EngInv b j si plan) :
    EngInv b (j + it.marks.length) st'.1 st'.2.2 := by
  unfold itemStep at h
  cases hm : it.marks with
  | nil =>
    rw [hm] at h
    dsimp only at h
    simp only [Option.some.injEq] at h
    subst h
    simpa using hinv
  | cons m0 rest =>
    rw [hm] at h
    dsimp only at h
    split at h
    · split at h
      · have := siameseLoop_inv D b s it (m0 :: rest) j (si + 1) _ _ st' h
          (EngInv_append hinv _)
        exact this
      · simp only [Option.some.injEq] at h
        subst h
        exact EngInv_mono (Nat.le_add_right j _) (EngInv_append hinv _)
    · split at h
      · exact siameseLoop_inv D b s it (m0 :: rest) j si se plan st' h hinv
      · simp only [Option.some.injEq] at h
        subst h
        exact EngInv_mono (Nat.le_add_right j _) hinv

theorem itemLoop_inv (D : List ℚ) (b : ℕ) :
    ∀ (items : List PlayItem) (j : ℕ) (s : ℤ) (l : ℚ)
      (si : ℕ) (se : ℚ) (plan : List (ℕ × Cfg)) (st' : ℕ × ℚ × List (ℕ × Cfg)),
    itemLoop D b items j s l (si, se, plan) = some st' →
    EngInv b j si plan → ∃ j2, EngInv b j2 st'.1 st'.2.2
  | [], j, s, l, si, se, plan, st', h, hinv => by
    simp only [itemLoop, Option.some.injEq] at h
    subst h
    exact ⟨j, hinv⟩
  | it :: rest, j, s, l, si, se, plan, st', h, hinv => by
    simp only [itemLoop] at h
    cases hs : itemStep D b j s l it (si, se, plan) with
    | none => rw [hs] at h; exact absurd h (by simp)
    | some st1 =>
      rw [hs] at h
      have h1 := itemStep_inv D b j s l it si se plan st1 hs hinv
      exact itemLoop_inv D b rest (j + it.marks.length) _ _ st1.1 st1.2.1 st1.2.2 st' h h1

theorem playlistLoop_inv (D : List ℚ) :
    ∀ (pls : List Playlist) (b si : ℕ) (se : ℚ) (plan : List (ℕ × Cfg))
      (st' : ℕ × ℚ × List (ℕ × Cfg)),
    playlistLoop D pls b (si, se, plan) = some st' →
    MidInv b si plan →
    List.Chain' pairLe (pairsOf st'.2.2) ∧ st'.2.2.map Prod.fst = List.range st'.1
  | [], b, si, se, plan, st', h, hmid => by
    simp only [playlistLoop, Option.some.injEq] at h
    subst h
    exact ⟨hmid.1, hmid.2.2⟩
  | pl :: rest, b, si, se, plan, st', h, hmid => by
    simp only [playlistLoop] at h
    cases hd : D.get? si with
    | none => rw [hd] at h; exact absurd h (by simp)
    | some d =>
      rw [hd] at h
      dsimp only at h
      cases hil : itemLoop D b pl.items 1 0 (totalTime pl)
          (si, d, plan ++ [(si, ⟨b, 1, 0⟩)]) with
      | none => rw [hil] at h; exact absurd h (by simp)
      | some st1 =>
        obtain ⟨si1, se1, plan1⟩ := st1
        rw [hil] at h
        dsimp only at h
        obtain ⟨j2, hinv⟩ := itemLoop_inv D b pl.items 1 0 (totalTime pl) si d
          (plan ++ [(si, ⟨b, 1, 0⟩)]) (si1, se1, plan1) hil (MidInv_start hmid)
        split at h
        · simp only [Option.some.injEq] at h
          subst h
          exact ⟨hinv.1, hinv.2.2⟩
        · refine playlistLoop_inv D rest (b + 1) (si1 + 1) se1 plan1 st' h ?_
          refine ⟨hinv.1, ?_, hinv.2.2⟩
          intro e he
          rcases hinv.2.1 e he with hlt | ⟨heq, _⟩
          · omega
          · omega

/-- The strictly increasing lexicographic order the original claim asserts. -/
def pairLt (a b : ℕ × ℕ) : Prop :=
  a.1 < b.1 ∨ (a.1 = b.1 ∧ a.2 < b.2)

/-- C2 counterexample: one playlist of a single 3000 s play-item whose only
mark sits at 2000 s, episode durations 100 s and 100 s.  The start-of-playlist
record gives episode 0 chapter 1, and the first-mark advance then records
episode 1 with the same chapter index j = 1: the pair (1, 1) repeats, so
(playlist_index, chapter_index) is not strictly increasing. -/
theorem engine_chapter_pairs_repeat :
    generate_configuration [⟨[⟨0, 135000000, [90000000]⟩]⟩] [100, 100] =
      some [(0, ⟨1, 1, 0⟩), (1, ⟨1, 1, 2000⟩)] ∧
    pairsOf [(0, ⟨1, 1, 0⟩), (1, ⟨1, 1, 2000⟩)] = [(1, 1), (1, 1)] ∧
    ¬ pairLt (1, 1) (1, 1) := by
  refine ⟨?_, by simp [pairsOf], by simp [pairLt]⟩
  norm_num [generate_configuration, playlistLoop, itemLoop, itemStep, siameseLoop, totalTime,
    List.get?, List.getD]

/-- C2 (amended): in every placement plan the engine produces without
overrides, the (playlist_index, chapter_index) pairs are non-decreasing in
lexicographic order across episodes (they are not always strictly
increasing: the start-of-playlist record and a first-mark advance within the
first play-item can share chapter index 1). -/
theorem engine_pairs_monotone (pls : List Playlist) (D : List ℚ)
    (plan : List (ℕ × Cfg)) (h : generate_configuration pls D = some plan) :
    List.Chain' pairLe (pairsOf plan) := by
  unfold generate_configuration at h
  cases hp : playlistLoop D pls 1 (0, 0, []) with
  | none => rw [hp] at h; exact absurd h (by simp)
  | some st =>
    rw [hp] at h
    simp only [Option.some.injEq] at h
    subst h
    exact (playlistLoop_inv D pls 1 0 0 [] st hp
      ⟨List.chain'_nil, by simp, by simp⟩).1

theorem engine_pairs_monotone_witness :
    generate_configuration [⟨[⟨0, 64800000, [0]⟩]⟩] [700, 700] =
      some [(0, ⟨1, 1, 0⟩)] ∧
    List.Chain' pairLe (pairsOf [(0, ⟨1, 1, 0⟩)]) :=
  ⟨by norm_num [generate_configuration, playlistLoop, itemLoop, itemStep, siameseLoop,
     totalTime, List.get?, List.getD],
   engine_pairs_monotone [⟨[⟨0, 64800000, [0]⟩]⟩] [700, 700] [(0, ⟨1, 1, 0⟩)]
     (by norm_num [generate_configuration, playlistLoop, itemLoop, itemStep, siameseLoop,
       totalTime, List.get?, List.getD])⟩

/-- C7 counterexample: one playlist with a single chapter boundary but two
episode subtitles (600 s each).  The engine raises nothing and returns a
plan assigning only episode 0; no AlignmentError exists in the source. -/
theorem engine_fewer_boundaries_plan_produced :
    generate_configuration [⟨[⟨0, 64800000, [0]⟩]⟩] [600, 600] =
      some [(0, ⟨1, 1, 0⟩)] := by
  norm_num [generate_configuration, playlistLoop, itemLoop, itemStep, siameseLoop, totalTime,
    List.get?, List.getD]

/-- C7 (amended): the no-override engine surfaces no alignment error; when
it completes, the episodes it assigned form a prefix 0..n-1 of the episode
list (episodes beyond the available boundaries are simply left unassigned,
as the counterexample shows concretely). -/
theorem engine_plan_keys_consecutive (pls : List Playlist) (D : List ℚ)
    (plan : List (ℕ × Cfg)) (h : generate_configuration pls D = some plan) :
    plan.map Prod.fst = List.range plan.length := by
  unfold generate_configuration at h
  cases hp : playlistLoop D pls 1 (0, 0, []) with
  | none => rw [hp] at h; exact absurd h (by simp)
  | some st =>
    rw [hp] at h
    simp only [Option.some.injEq] at h
    subst h
    have hkeys := (playlistLoop_inv D pls 1 0 0 [] st hp
      ⟨List.chain'_nil, by simp, by simp⟩).2
    have hlen : (st.2.2).length = st.1 := by
      have := congrArg List.length hkeys
      simpa using this
    rw [hlen]
    exact hkeys

theorem engine_plan_keys_consecutive_witness :
    generate_configuration [⟨[⟨0, 135000000, [90000000]⟩]⟩] [150, 150] =
      some [(0, ⟨1, 1, 0⟩), (1, ⟨1, 1, 2000⟩)] ∧
    ([(0, (⟨1, 1, 0⟩ : Cfg)), (1, ⟨1, 1, 2000⟩)].map Prod.fst =
      List.range [(0, (⟨1, 1, 0⟩ : Cfg)), (1, ⟨1, 1, 2000⟩)].length) :=
  ⟨by norm_num [generate_configuration, playlistLoop, itemLoop, itemStep, siameseLoop,
     totalTime, List.get?, List.getD],
   engine_plan_keys_consecutive [⟨[⟨0, 135000000, [90000000]⟩]⟩] [150, 150]
     [(0, ⟨1, 1, 0⟩), (1, ⟨1, 1, 2000⟩)]
     (by norm_num [generate_configuration, playlistLoop, itemLoop, itemStep, siameseLoop,
       totalTime, List.get?, List.getD])⟩

/-- C1 counterexample: the siamese disc of the claim (single 2880 s
play-item, marks at 0 and 1440 s) with episode durations exactly 1440 s.
The engine assigns only episode 0 to (P, 1, 0): the second mark's boundary
1440 does not strictly exceed episode 0's end time 0 + 1440, so episode 1
receives no placement at all, contradicting the claimed plan. -/
theorem engine_siamese_exact_durations_unassigned :
    generate_configuration [⟨[⟨0, 129600000, [0, 64800000]⟩]⟩] [1440, 1440] =
      some [(0, ⟨1, 1, 0⟩)] := by
  norm_num [generate_configuration, playlistLoop, itemLoop, itemStep, siameseLoop, totalTime,
    List.get?, List.getD]

/-- C1 (amended): on the siamese disc, with episode durations strictly below
the 1440 s gap (here 1430 s), the engine places episode 0 at (P, 1, 0) and
episode 1 at the second mark's offset 1440 s, but labels it chapter 3, not
chapter 2: the siamese scan's counter k starts at the play-item's first
chapter index 1 and is incremented before use at every mark, so the second
mark is recorded as k = 3.  With durations exactly 1440 s nothing is placed
for episode 1 (strict comparison), as the counterexample shows. -/
theorem engine_siamese_trace :
    generate_configuration [⟨[⟨0, 129600000, [0, 64800000]⟩]⟩] [1430, 1430] =
      some [(0, ⟨1, 1, 0⟩), (1, ⟨1, 3, 1440⟩)] := by
  norm_num [generate_configuration, playlistLoop, itemLoop, itemStep, siameseLoop, totalTime,
    List.get?, List.getD]
